import Mathlib

/-!
Verification development for the listing-acquisition queue of
slammyslinker-sketch.github.io.

The definitions below are a shallow embedding of the JavaScript sources:

* `src/gear-hunt/process-queue.js` — input sanitization (`SECURITY.sanitizeSearch`,
  `SECURITY.sanitizeZip`, `SECURITY.validateQueueEntry`), price extraction
  (`extractPrice`), ranking (`getTop3Cheapest`), queue bookkeeping
  (`updateQueueStatus`, `processQueue`, `gitPush`);
* `src/search-playwright.js` — the housing-variant merge (`saveListings`).

Modelling conventions:

* JavaScript strings are modelled by Lean `String` (a list of `Char`); the
  JS `length` (UTF-16 units) is modelled by codepoint length, which agrees on
  all inputs of interest here.
* The regex class `\s` (and the set trimmed by `String.prototype.trim`) is the
  ECMAScript WhiteSpace/LineTerminator set, spelled out as code points.
* JS numbers produced by `parseFloat` are modelled exactly by `PriceVal`:
  a decimal value (numerator with a power-of-ten scale), positive infinity,
  or NaN, compared by cross multiplication.  (`parseFloat` rounds to double;
  the rounding never affects the orderings proved here.)
* File-system state (the queue JSON document) is passed explicitly:
  `processQueue` maps the loaded `QueueState` plus an `Env` (outcomes of the
  browser launch, the scraping run and the git push, and the current
  timestamp) to the finally persisted `QueueState`, together with the list of
  jobs that were actually executed and the outcome of the push.
-/

/-! ## Character classes (ECMAScript) -/

/-- The ECMAScript `\s` class (WhiteSpace and LineTerminator code points),
which is also the set removed by `String.prototype.trim`. -/
def jsWsProp (n : Nat) : Prop :=
  n = 9 ∨ n = 10 ∨ n = 11 ∨ n = 12 ∨ n = 13 ∨ n = 32 ∨ n = 160 ∨ n = 5760 ∨
    (8192 ≤ n ∧ n ≤ 8202) ∨ n = 8232 ∨ n = 8233 ∨ n = 8239 ∨ n = 8287 ∨
    n = 12288 ∨ n = 65279

instance (n : Nat) : Decidable (jsWsProp n) := by
  unfold jsWsProp; infer_instance

/-- The control characters blocked by `SECURITY.BLOCKED_PATTERNS[0]`:
the regex class `[\x00-\x08\x0B\x0C\x0E-\x1F\x7F]`. -/
def controlProp (n : Nat) : Prop :=
  n ≤ 8 ∨ n = 11 ∨ n = 12 ∨ (14 ≤ n ∧ n ≤ 31) ∨ n = 127

instance (n : Nat) : Decidable (controlProp n) := by
  unfold controlProp; infer_instance

/-- The characters blocked by `SECURITY.BLOCKED_PATTERNS[1]`:
the regex class with < > double-quote single-quote backtick ; backslash
dollar braces brackets and pipe. -/
def dangerProp (n : Nat) : Prop :=
  n = 60 ∨ n = 62 ∨ n = 34 ∨ n = 39 ∨ n = 96 ∨ n = 59 ∨ n = 92 ∨ n = 36 ∨
    n = 123 ∨ n = 125 ∨ n = 91 ∨ n = 93 ∨ n = 124

instance (n : Nat) : Decidable (dangerProp n) := by
  unfold dangerProp; infer_instance

/-- ASCII digit. -/
def digitProp (n : Nat) : Prop := 48 ≤ n ∧ n ≤ 57

instance (n : Nat) : Decidable (digitProp n) := by
  unfold digitProp; infer_instance

/-- The regex `\w` class: ASCII letters, digits and underscore. -/
def wordProp (n : Nat) : Prop :=
  (65 ≤ n ∧ n ≤ 90) ∨ (97 ≤ n ∧ n ≤ 122) ∨ digitProp n ∨ n = 95

instance (n : Nat) : Decidable (wordProp n) := by
  unfold wordProp; infer_instance

/-- Lowercase hex digit (`[0-9a-f]`). -/
def hexLowerProp (n : Nat) : Prop := digitProp n ∨ (97 ≤ n ∧ n ≤ 102)

instance (n : Nat) : Decidable (hexLowerProp n) := by
  unfold hexLowerProp; infer_instance

/-- The allow-list `SECURITY.ALLOWED_SEARCH_CHARS`, i.e. the regex class
of ASCII letters, digits, `\s`, and the punctuation - _ . ( ) , & +. -/
def allowedProp (n : Nat) : Prop :=
  (65 ≤ n ∧ n ≤ 90) ∨ (97 ≤ n ∧ n ≤ 122) ∨ digitProp n ∨ jsWsProp n ∨
    n = 45 ∨ n = 95 ∨ n = 46 ∨ n = 40 ∨ n = 41 ∨ n = 44 ∨ n = 38 ∨ n = 43

instance (n : Nat) : Decidable (allowedProp n) := by
  unfold allowedProp; infer_instance

/-- Alphanumeric (the queue-entry id format `/^[a-zA-Z0-9]+$/`). -/
def alnumProp (n : Nat) : Prop :=
  (65 ≤ n ∧ n ≤ 90) ∨ (97 ≤ n ∧ n ≤ 122) ∨ digitProp n

instance (n : Nat) : Decidable (alnumProp n) := by
  unfold alnumProp; infer_instance

/-- ECMAScript LineTerminator (not matched by `.` in a regex). -/
def lineTermProp (n : Nat) : Prop := n = 10 ∨ n = 13 ∨ n = 8232 ∨ n = 8233

instance (n : Nat) : Decidable (lineTermProp n) := by
  unfold lineTermProp; infer_instance

/-- Case folding used for the `/i` regex flag, restricted to ASCII
(all the patterns in the source are ASCII). -/
def lowerChar (c : Char) : Char :=
  if 65 ≤ c.toNat ∧ c.toNat ≤ 90 then Char.ofNat (c.toNat + 32) else c

def wsB (c : Char) : Bool := decide (jsWsProp c.toNat)
def digitB (c : Char) : Bool := decide (digitProp c.toNat)
def digitCommaB (c : Char) : Bool := digitB c || decide (c.toNat = 44)
def wordB (c : Char) : Bool := decide (wordProp c.toNat)
def lineTermB (c : Char) : Bool := decide (lineTermProp c.toNat)

/-! ## String scanning primitives -/

/-- Does `l` start with the literal sequence `sub`? -/
def startsWithSeq : List Char → List Char → Bool
  | [], _ => true
  | _ :: _, [] => false
  | a :: as, b :: bs => a == b && startsWithSeq as bs

/-- Does `sub` occur (contiguously) anywhere in `l`?  This is regex matching
of a literal pattern. -/
def containsSeq (sub : List Char) : List Char → Bool
  | [] => startsWithSeq sub []
  | c :: rest => startsWithSeq sub (c :: rest) || containsSeq sub rest

/-- Does a match of the position predicate `p` start at some suffix of `l`?
Used to model unanchored regex search. -/
def scanAll (p : List Char → Bool) : List Char → Bool
  | [] => p []
  | c :: rest => p (c :: rest) || scanAll p rest

/-- Case-insensitive containment of an ASCII-lowercase literal `sub`. -/
def containsCI (sub : String) (s : String) : Bool :=
  containsSeq sub.data (s.data.map lowerChar)

/-! ## The deny-list `SECURITY.BLOCKED_PATTERNS` -/

/-- Pattern 0: a blocked control character occurs. -/
def hasControlChar (s : String) : Bool :=
  s.data.any (fun c => decide (controlProp c.toNat))

/-- Pattern 1: a blocked dangerous character occurs. -/
def hasDangerChar (s : String) : Bool :=
  s.data.any (fun c => decide (dangerProp c.toNat))

/-- Pattern 2: `/(javascript|data|vbscript):/i`. -/
def hasProtocol (s : String) : Bool :=
  containsCI "javascript:" s || containsCI "data:" s || containsCI "vbscript:" s

/-- Tail of the event-handler pattern after `on\w+`: `\s*=`.  The classes
`\w`, `\s` and the literal `=` are pairwise disjoint, so the greedy match
needs no backtracking. -/
def evWsEq : List Char → Bool
  | [] => false
  | c :: rest => if wsB c then evWsEq rest else decide (c.toNat = 61)

/-- Tail of the event-handler pattern after `on\w`: `\w*\s*=`. -/
def evWordTail : List Char → Bool
  | [] => false
  | c :: rest => if wordB c then evWordTail rest else evWsEq (c :: rest)

/-- A match of `/on\w+\s*=/` starting at the head of an
(already lowercased) position. -/
def evAt : List Char → Bool
  | c1 :: c2 :: c3 :: rest =>
      c1 == 'o' && c2 == 'n' && wordB c3 && evWordTail rest
  | _ => false

/-- Pattern 3: `/on\w+\s*=/i`. -/
def hasEventHandler (s : String) : Bool :=
  scanAll evAt (s.data.map lowerChar)

/-- After a template opener: `.*\}` where `.` excludes line terminators. -/
def tmplTail : List Char → Bool
  | [] => false
  | c :: rest => decide (c.toNat = 125) || (!lineTermB c && tmplTail rest)

/-- A match of the template-interpolation pattern (dollar, open brace,
`.*`, close brace) starting at the head. -/
def tmplAt : List Char → Bool
  | c1 :: c2 :: rest => decide (c1.toNat = 36) && decide (c2.toNat = 123) && tmplTail rest
  | _ => false

/-- Pattern 4: template-literal interpolation. -/
def hasTemplate (s : String) : Bool := scanAll tmplAt s.data

/-- After an opening backtick: `.*` then a closing backtick. -/
def btTail : List Char → Bool
  | [] => false
  | c :: rest => decide (c.toNat = 96) || (!lineTermB c && btTail rest)

/-- A match of the backtick-pair pattern starting at the head. -/
def btAt : List Char → Bool
  | c :: rest => decide (c.toNat = 96) && btTail rest
  | _ => false

/-- Pattern 5: a backtick-delimited sequence. -/
def hasBacktickPair (s : String) : Bool := scanAll btAt s.data

/-- A match of `/\\x[0-9a-f]{2}/i` starting at the head (92 is backslash). -/
def hexEscAt : List Char → Bool
  | c1 :: c2 :: c3 :: c4 :: _ =>
      decide (c1.toNat = 92) && (lowerChar c2) == 'x' &&
        decide (hexLowerProp (lowerChar c3).toNat) &&
        decide (hexLowerProp (lowerChar c4).toNat)
  | _ => false

/-- Pattern 6: hex escape. -/
def hasHexEscape (s : String) : Bool := scanAll hexEscAt s.data

/-- A match of `/\\u[0-9a-f]{4}/i` starting at the head. -/
def uniEscAt : List Char → Bool
  | c1 :: c2 :: c3 :: c4 :: c5 :: c6 :: _ =>
      decide (c1.toNat = 92) && (lowerChar c2) == 'u' &&
        decide (hexLowerProp (lowerChar c3).toNat) &&
        decide (hexLowerProp (lowerChar c4).toNat) &&
        decide (hexLowerProp (lowerChar c5).toNat) &&
        decide (hexLowerProp (lowerChar c6).toNat)
  | _ => false

/-- Pattern 7: unicode escape. -/
def hasUniEscape (s : String) : Bool := scanAll uniEscAt s.data

/-- The two-hex-digit alternatives of the URL-encoding pattern
`%(?:2[12]|3[bc]|3[0-9a-f]|5[bc]|7[bcd])`, on lowercased characters. -/
def pctPair (a b : Char) : Bool :=
  (a == '2' && (b == '1' || b == '2')) ||
  (a == '3' && (b == 'b' || b == 'c')) ||
  (a == '3' && decide (hexLowerProp b.toNat)) ||
  (a == '5' && (b == 'b' || b == 'c')) ||
  (a == '7' && (b == 'b' || b == 'c' || b == 'd'))

/-- A match of the URL-encoding pattern starting at the head (37 is the
percent sign). -/
def pctAt : List Char → Bool
  | c1 :: c2 :: c3 :: _ =>
      decide (c1.toNat = 37) && pctPair (lowerChar c2) (lowerChar c3)
  | _ => false

/-- Pattern 8: percent-encoded dangerous characters. -/
def hasPctEscape (s : String) : Bool := scanAll pctAt s.data

/-- Patterns 9-12: `/<script/i`, `/<iframe/i`, `/<object/i`, `/<embed/i`. -/
def hasTagOpener (s : String) : Bool :=
  containsCI "<script" s || containsCI "<iframe" s ||
    containsCI "<object" s || containsCI "<embed" s

/-- The full deny-list test: some pattern of `SECURITY.BLOCKED_PATTERNS`
matches the input. -/
def blockedAny (s : String) : Bool :=
  hasControlChar s || hasDangerChar s || hasProtocol s || hasEventHandler s ||
    hasTemplate s || hasBacktickPair s || hasHexEscape s || hasUniEscape s ||
    hasPctEscape s || hasTagOpener s

/-! ## Whitespace normalization -/

/-- `String.prototype.trim`: drop `\s` characters from both ends. -/
def trimWs (l : List Char) : List Char :=
  ((l.dropWhile wsB).reverse.dropWhile wsB).reverse

/-- `replace(/\s+/g, ' ')`: each maximal run of `\s` characters becomes a
single space.  The flag records whether the previous character was `\s`
(so the current run has already emitted its space). -/
def collapseWs : List Char → Bool → List Char
  | [], _ => []
  | c :: rest, prevWs =>
      if wsB c then
        if prevWs then collapseWs rest true else ' ' :: collapseWs rest true
      else c :: collapseWs rest false

/-- The allow-list test `/^[a-zA-Z0-9\s\-_\.\(\),&+]+$/.test`: nonempty and
every character in the allowed class. -/
def allowedTest (l : List Char) : Bool :=
  !l.isEmpty && l.all (fun c => decide (allowedProp c.toNat))

/-! ## `SECURITY.sanitizeSearch` and `SECURITY.sanitizeZip` -/

/-- The distinct rejection paths of the sanitizer and the queue-entry
validator (the spec's `InvalidInput` taxonomy). -/
inductive SanErr where
  | badLength
  | blockedChars
  | disallowedChars
  | badZip
  | missingField
  | badId
deriving DecidableEq

/-- `SECURITY.sanitizeSearch`: reject on raw length outside [2, 55], then on
any deny-list pattern; then trim and collapse whitespace; finally require the
allow-list to match the normalized string. -/
def sanitizeSearch (input : String) : Except SanErr String :=
  if input.length < 2 ∨ 55 < input.length then .error .badLength
  else if blockedAny input then .error .blockedChars
  else if allowedTest (collapseWs (trimWs input.data) false) then
    .ok ⟨collapseWs (trimWs input.data) false⟩
  else .error .disallowedChars

/-- `SECURITY.sanitizeZip`: keep only digits, truncate to 5, require exactly
5 digits. -/
def sanitizeZip (input : String) : Except SanErr String :=
  let cleaned := (input.data.filter digitB).take 5
  if cleaned.length == 5 && cleaned.all digitB then .ok ⟨cleaned⟩
  else .error .badZip

/-! ## Price extraction and ranking (`extractPrice`, `getTop3Cheapest`) -/

/-- The value of a JS number produced by price extraction: an exact decimal
(`val n s` denotes n / 10 ^ s), positive infinity, or NaN.  The decimal is
kept unreduced so every operation is plain Nat arithmetic. -/
inductive PriceVal where
  | val (num : Nat) (scale : Nat)
  | inf
  | nan
deriving DecidableEq

/-- The rational a finite `PriceVal` denotes. -/
def qval (num scale : Nat) : ℚ := (num : ℚ) / 10 ^ scale

/-- The greedy match of `[\d,]+\.?\d*` starting at a position whose head is a
digit or comma.  The classes involved are disjoint from the dot, so the
greedy match needs no backtracking. -/
def matchFrom (l : List Char) : List Char :=
  let run1 := l.takeWhile digitCommaB
  match l.dropWhile digitCommaB with
  | c :: r2 => if c.toNat = 46 then run1 ++ c :: r2.takeWhile digitB else run1
  | [] => run1

/-- The leftmost match of `/[\d,]+\.?\d*/` in the list, if any:
`String.prototype.match` without the global flag. -/
def firstNumMatch : List Char → Option (List Char)
  | [] => none
  | c :: rest =>
      if digitCommaB c then some (matchFrom (c :: rest)) else firstNumMatch rest

/-- Numeric value of a digit string (most significant first). -/
def natOfDigits (l : List Char) : Nat :=
  l.foldl (fun a c => 10 * a + (c.toNat - 48)) 0

/-- `parseFloat` on the comma-stripped match: optional integer digits, an
optional dot, optional fraction digits; NaN when no digit was consumed. -/
def parseJsFloat (l : List Char) : PriceVal :=
  let ip := l.takeWhile digitB
  let fp := match l.dropWhile digitB with
    | c :: r2 => if c.toNat = 46 then r2.takeWhile digitB else []
    | [] => []
  if ip = [] ∧ fp = [] then .nan
  else .val (natOfDigits ip * 10 ^ fp.length + natOfDigits fp) fp.length

/-- `extractPrice`: a falsy (absent or empty) price string is Infinity; else
the first `[\d,]+\.?\d*` match, commas removed, through `parseFloat`; no
match is Infinity. -/
def extractPrice (priceStr : Option String) : PriceVal :=
  match priceStr with
  | none => .inf
  | some s =>
      if s.data = [] then .inf
      else
        match firstNumMatch s.data with
        | none => .inf
        | some m => parseJsFloat (m.filter (fun ch => !(ch.toNat = 44 : Bool)))

/-- The sign of the JS subtraction comparator
`(a, b) => extractPrice(a.price) - extractPrice(b.price)`.
A NaN comparator result is treated as +0 by the sort algorithm
(`SortCompare` coerces NaN to "equal"). -/
def cmpPrice : PriceVal → PriceVal → Int
  | .val n1 s1, .val n2 s2 =>
      if n1 * 10 ^ s2 < n2 * 10 ^ s1 then -1
      else if n2 * 10 ^ s1 < n1 * 10 ^ s2 then 1 else 0
  | .val _ _, .inf => -1
  | .inf, .val _ _ => 1
  | .inf, .inf => 0
  | .nan, _ => 0
  | _, .nan => 0

/-- Insert `x` into `l` immediately before the first element `y` with
`le x y`. -/
def insertSorted (le : α → α → Bool) (x : α) : List α → List α
  | [] => [x]
  | y :: ys => if le x y then x :: y :: ys else y :: insertSorted le x ys

/-- A stable sort (insertion sort, folding from the right and inserting
before the first not-smaller element).  `Array.prototype.sort` is required
to be stable, and a stable sort is unique given a consistent comparator, so
this models the JS sort for the comparators that arise here. -/
def stableSort (le : α → α → Bool) : List α → List α
  | [] => []
  | x :: xs => insertSorted le x (stableSort le xs)

/-- A gear listing as produced by the scrapers in
`src/gear-hunt/process-queue.js` (the Normalizer's canonical shape). -/
structure GListing where
  title : String
  price : Option String
  image : Option String
  url : Option String
  source : String
  condition : String
  location : String
deriving DecidableEq

/-- JS truthiness of a possibly-absent string field. -/
def jsTruthyStr : Option String → Bool
  | none => false
  | some s => !(s.data = [] : Bool)

/-- The filter of `getTop3Cheapest`:
`l.price && l.price !== 'Price not shown' && l.price !== 'Contact for Price'`. -/
def keepListing (l : GListing) : Bool :=
  jsTruthyStr l.price && !(l.price == some "Price not shown") &&
    !(l.price == some "Contact for Price")

/-- The comparator of `getTop3Cheapest` as a non-strict order test. -/
def priceLe (a b : GListing) : Bool :=
  decide (cmpPrice (extractPrice a.price) (extractPrice b.price) ≤ 0)

/-- `getTop3Cheapest`: filter, stable-sort by extracted price, take 3. -/
def getTop3Cheapest (listings : List GListing) : List GListing :=
  (stableSort priceLe (listings.filter keepListing)).take 3

/-- Does the price text contain a match of the numeric pattern?  (The claim's
notion of a price that is not the untracked sentinel.) -/
def hasNumericMatch : Option String → Bool
  | none => false
  | some s => !(s.data = [] : Bool) && (firstNumMatch s.data).isSome

/-- The top-3 ranking as claim C4 words it: first remove every listing whose
price is the untracked sentinel (no numeric match in its price text) or an
explicit unavailable marker, then stable-sort ascending by extracted numeric
price, then take the first 3. -/
def top3Claimed (listings : List GListing) : List GListing :=
  (stableSort priceLe (listings.filter (fun l =>
    hasNumericMatch l.price && !(l.price == some "Price not shown") &&
      !(l.price == some "Contact for Price")))).take 3

/-- The filter as the amended claim words it: remove exactly the listings
whose price text is absent or empty or is one of the two exact marker
strings. -/
def amendedKeep (l : GListing) : Bool :=
  match l.price with
  | none => false
  | some s => !(s.data = [] : Bool) && !(s == "Price not shown") &&
      !(s == "Contact for Price")

/-- The top-3 ranking as the amended claim C4 words it. -/
def top3Amended (listings : List GListing) : List GListing :=
  (stableSort priceLe (listings.filter amendedKeep)).take 3

/-! ## Housing-variant merge (`saveListings` in `src/search-playwright.js`) -/

/-- A housing listing in the shape built by `scrapeZip`. -/
structure HListing where
  id : String
  address : String
  city : String
  state : String
  zip : String
  price : String
  beds : Nat
  baths : ℚ
  sqft : Nat
  status : String
  url : String
  image : Option String
  isNew : Bool
  hoa : Option String
  notes : String
deriving DecidableEq

/-- The fixed `CONFIG` search criteria recorded in every result document. -/
structure SearchCriteria where
  zips : List String
  priceMin : Nat
  priceMax : Nat
  bedsMin : Nat
  bedsMax : Nat
  bathsMin : Nat
  sqftMin : Nat
  sqftMax : Nat
deriving DecidableEq

def configCriteria : SearchCriteria :=
  { zips := ["29710", "29745", "29720", "29730"], priceMin := 300000,
    priceMax := 400000, bedsMin := 3, bedsMax := 4, bathsMin := 2,
    sqftMin := 1800, sqftMax := 2200 }

/-- The persisted `listings.json` document (the housing ResultDocument). -/
structure ResultDocument where
  lastUpdated : String
  lastChecked : String
  searchCriteria : SearchCriteria
  listings : List HListing
deriving DecidableEq

/-- `saveListings`: stamp each new candidate with
`isNew = !existingIds.has(l.id)` (where `existingIds` are the ids of the
previous document's listings) and overwrite the document with exactly the
new candidate set. -/
def saveListings (existingIds : List String) (listings : List HListing)
    (now : String) : ResultDocument :=
  { lastUpdated := now, lastChecked := now, searchCriteria := configCriteria,
    listings := listings.map (fun l => { l with isNew := !existingIds.contains l.id }) }

/-! ## The queue state machine (`processQueue` in `src/gear-hunt/process-queue.js`) -/

/-- An entry of `pendingSearches` in `search-queue.json`. -/
structure QueueEntry where
  id : String
  term : String
  zip : String
deriving DecidableEq

/-- `SECURITY.validateQueueEntry`: require the `term`, `zip` and `id` fields
to be truthy, the id to be alphanumeric, and the term and zip to sanitize. -/
def validateQueueEntry (e : QueueEntry) : Except SanErr QueueEntry :=
  if e.term.data = [] ∨ e.zip.data = [] ∨ e.id.data = [] then .error .missingField
  else if !(!(e.id.data = [] : Bool) && e.id.data.all (fun c => decide (alnumProp c.toNat)))
    then .error .badId
  else
    match sanitizeSearch e.term with
    | .error err => .error err
    | .ok t =>
        match sanitizeZip e.zip with
        | .error err => .error err
        | .ok z => .ok { e with term := t, zip := z }

/-- A record of `completedSearches` (the completed-search ring buffer). -/
structure CompletedSearch where
  entry : QueueEntry
  completedAt : String
  resultCount : Nat
  success : Bool
deriving DecidableEq

/-- The `search-queue.json` document. -/
structure QueueState where
  pendingSearches : List QueueEntry
  processing : Option QueueEntry
  currentProgress : Nat
  statusMessage : String
  completedSearches : List CompletedSearch
  lastChecked : String
deriving DecidableEq

/-- The environment of one `processQueue` run: whether the browser launches,
the outcome `processSearch` reports (`success` and the result count), whether
`gitPush` succeeds, and the current timestamp. -/
structure Env where
  browserOk : Bool
  searchSuccess : Bool
  searchCount : Nat
  pushOk : Bool
  now : String

/-- The outcome of one `processQueue` run: the finally persisted queue state,
the jobs for which `processSearch` was invoked, and whether the git push
went through. -/
structure PQOut where
  state : QueueState
  executed : List QueueEntry
  pushed : Bool
deriving DecidableEq

/-- One cron trigger of `processQueue`:

* no pending searches: touch `lastChecked` and return;
* `processing` non-null (single-flight guard): return with no writes;
* head entry fails validation: drop it and return;
* otherwise claim the job (`processing` set, progress reset — the durable
  pre-transition write), launch the browser (on failure, clear `processing`
  and return), run `processSearch`, then shift the job off the queue, record
  it in `completedSearches` (capped at 10), clear `processing`, persist, and
  finally run `gitPush` only when the search reported success.  The push
  result is only logged; it does not feed back into the queue document. -/
def processQueue (q : QueueState) (env : Env) : PQOut :=
  match q.pendingSearches with
  | [] => { state := { q with lastChecked := env.now }, executed := [], pushed := false }
  | e :: rest =>
    if q.processing.isSome then { state := q, executed := [], pushed := false }
    else
      match validateQueueEntry e with
      | .error _ =>
          { state := { q with pendingSearches := rest }, executed := [], pushed := false }
      | .ok search =>
          let q1 : QueueState :=
            { q with processing := some search, currentProgress := 0,
                     statusMessage := "Starting..." }
          if !env.browserOk then
            { state := { q1 with processing := none }, executed := [], pushed := false }
          else
            let count := if env.searchSuccess then env.searchCount else 0
            let completed : CompletedSearch :=
              { entry := search, completedAt := env.now, resultCount := count,
                success := env.searchSuccess }
            let cs := completed :: q1.completedSearches
            let cs2 := if 10 < cs.length then cs.take 10 else cs
            { state :=
                { pendingSearches := rest, processing := none, currentProgress := 0,
                  statusMessage := "", completedSearches := cs2, lastChecked := env.now },
              executed := [search],
              pushed := env.searchSuccess && env.pushOk }

/-- A sequence of cron triggers, threading the persisted state and
collecting every executed job. -/
def runTriggers : QueueState → List Env → QueueState × List QueueEntry
  | q, [] => (q, [])
  | q, env :: rest =>
      ((runTriggers (processQueue q env).state rest).1,
        (processQueue q env).executed ++ (runTriggers (processQueue q env).state rest).2)

/-- The partial update objects passed to `updateQueueStatus`
(`Object.assign` only touches the keys present in the update; the call sites
pass `currentProgress`+`statusMessage` or `lastChecked`). -/
structure QueueUpdate where
  currentProgress : Option Nat := none
  statusMessage : Option String := none
  lastChecked : Option String := none

/-- `updateQueueStatus`: read the queue document, `Object.assign` the update
onto it, and write it back. -/
def updateQueueStatus (q : QueueState) (u : QueueUpdate) : QueueState :=
  { q with
    currentProgress := u.currentProgress.getD q.currentProgress,
    statusMessage := u.statusMessage.getD q.statusMessage,
    lastChecked := u.lastChecked.getD q.lastChecked }

/-- The update the `onProgress` callback of `processSearch` issues. -/
def progressUpdate (percent : Nat) (message : String) : QueueUpdate :=
  { currentProgress := some percent, statusMessage := some message }

/-! ## Concrete example data used by witnesses and counterexamples -/

def exEntry : QueueEntry := { id := "a1", term := "guitar amp", zip := "29710" }

def busyEntry : QueueEntry := { id := "b2", term := "drum kit", zip := "29745" }

def cexEnv : Env :=
  { browserOk := true, searchSuccess := true, searchCount := 3, pushOk := false,
    now := "t1" }

def cexQueue : QueueState :=
  { pendingSearches := [exEntry], processing := none, currentProgress := 0,
    statusMessage := "", completedSearches := [], lastChecked := "t0" }

def busyQueue : QueueState :=
  { pendingSearches := [exEntry], processing := some busyEntry,
    currentProgress := 40, statusMessage := "Extracting listings...",
    completedSearches := [], lastChecked := "t0" }

def staleQueue : QueueState :=
  { pendingSearches := [exEntry], processing := some busyEntry,
    currentProgress := 5, statusMessage := "Starting search...",
    completedSearches := [], lastChecked := "t0" }

def hListB : HListing :=
  { id := "B", address := "2 Beta St", city := "Unknown", state := "SC",
    zip := "29710", price := "$350,000", beds := 3, baths := 2, sqft := 2000,
    status := "For Sale", url := "uB", image := none, isNew := true,
    hoa := none, notes := "" }

def hListC : HListing :=
  { id := "C", address := "3 Gamma St", city := "Unknown", state := "SC",
    zip := "29745", price := "$360,000", beds := 4, baths := 2, sqft := 2100,
    status := "For Sale", url := "uC", image := none, isNew := true,
    hoa := none, notes := "" }

def glA : GListing :=
  { title := "amp A", price := some "$50", image := none, url := none,
    source := "Reverb", condition := "Used", location := "Ships nationwide" }

def glB : GListing :=
  { title := "amp B", price := some "Price not shown", image := none,
    url := none, source := "Reverb", condition := "Used",
    location := "Ships nationwide" }

def glC : GListing :=
  { title := "amp C", price := some "$10", image := none, url := none,
    source := "eBay", condition := "Varies", location := "Ships nationwide" }

def glD : GListing :=
  { title := "amp D", price := some "$30", image := none, url := none,
    source := "eBay", condition := "Varies", location := "Ships nationwide" }

def glContact : GListing :=
  { title := "amp E", price := some "Contact for price", image := none,
    url := none, source := "Craigslist", condition := "Used",
    location := "Local" }

/-! ## Support lemmas: scanners and character classes -/

theorem lowerChar_toNat (c : Char) :
    (lowerChar c).toNat =
      if 65 ≤ c.toNat ∧ c.toNat ≤ 90 then c.toNat + 32 else c.toNat := by
  unfold lowerChar
  split
  · rename_i h
    have hv : (c.toNat + 32).isValidChar := Or.inl (by omega)
    show (Char.ofNat (c.toNat + 32)).toNat = c.toNat + 32
    unfold Char.ofNat
    rw [dif_pos hv]
    rfl
  · rfl

/-- If a character lowercases to a code point outside the lowercase-letter
range, it already was that code point. -/
theorem toNat_of_lowerChar_toNat {c : Char} {k : Nat}
    (h : (lowerChar c).toNat = k) (hk : k < 97 ∨ 122 < k) : c.toNat = k := by
  rw [lowerChar_toNat] at h
  split at h
  · omega
  · exact h

theorem startsWithSeq_subset :
    ∀ {sub l : List Char}, startsWithSeq sub l = true → ∀ c ∈ sub, c ∈ l := by
  intro sub
  induction sub with
  | nil => intro l _ c hc; simp at hc
  | cons a as ih =>
    intro l h c hc
    cases l with
    | nil => simp [startsWithSeq] at h
    | cons b bs =>
      simp only [startsWithSeq, Bool.and_eq_true, beq_iff_eq] at h
      rcases List.mem_cons.mp hc with rfl | hc
      · exact h.1 ▸ List.mem_cons_self _ _
      · exact List.mem_cons_of_mem _ (ih h.2 c hc)

theorem containsSeq_subset :
    ∀ {l sub : List Char}, containsSeq sub l = true → ∀ c ∈ sub, c ∈ l := by
  intro l
  induction l with
  | nil => intro sub h c hc; exact startsWithSeq_subset h c hc
  | cons b bs ih =>
    intro sub h c hc
    rcases Bool.or_eq_true _ _ |>.mp h with h1 | h2
    · exact startsWithSeq_subset h1 c hc
    · exact List.mem_cons_of_mem _ (ih h2 c hc)

theorem scanAll_ex {p : List Char → Bool} {r : Char → Prop}
    (hp : ∀ l, p l = true → ∃ c ∈ l, r c) :
    ∀ {L : List Char}, scanAll p L = true → ∃ c ∈ L, r c := by
  intro L
  induction L with
  | nil => intro h; exact hp [] h
  | cons b bs ih =>
    intro h
    rcases Bool.or_eq_true _ _ |>.mp h with h1 | h2
    · exact hp _ h1
    · obtain ⟨c, hc, hr⟩ := ih h2
      exact ⟨c, List.mem_cons_of_mem _ hc, hr⟩

theorem evWsEq_mem : ∀ {l : List Char}, evWsEq l = true → ∃ c ∈ l, c.toNat = 61 := by
  intro l
  induction l with
  | nil => intro h; simp [evWsEq] at h
  | cons b bs ih =>
    intro h
    unfold evWsEq at h
    split at h
    · obtain ⟨c, hc, hr⟩ := ih h
      exact ⟨c, List.mem_cons_of_mem _ hc, hr⟩
    · exact ⟨b, List.mem_cons_self _ _, of_decide_eq_true h⟩

theorem evWordTail_mem :
    ∀ {l : List Char}, evWordTail l = true → ∃ c ∈ l, c.toNat = 61 := by
  intro l
  induction l with
  | nil => intro h; simp [evWordTail] at h
  | cons b bs ih =>
    intro h
    unfold evWordTail at h
    split at h
    · obtain ⟨c, hc, hr⟩ := ih h
      exact ⟨c, List.mem_cons_of_mem _ hc, hr⟩
    · exact evWsEq_mem h

theorem evAt_mem {l : List Char} (h : evAt l = true) : ∃ c ∈ l, c.toNat = 61 := by
  match l, h with
  | c1 :: c2 :: c3 :: rest, h =>
    simp only [evAt, Bool.and_eq_true] at h
    obtain ⟨c, hc, hr⟩ := evWordTail_mem h.2
    exact ⟨c, by simp [hc], hr⟩

theorem tmplAt_mem {l : List Char} (h : tmplAt l = true) : ∃ c ∈ l, c.toNat = 36 := by
  match l, h with
  | c1 :: c2 :: rest, h =>
    simp only [tmplAt, Bool.and_eq_true, decide_eq_true_eq] at h
    exact ⟨c1, List.mem_cons_self _ _, h.1.1⟩

theorem btAt_mem {l : List Char} (h : btAt l = true) : ∃ c ∈ l, c.toNat = 96 := by
  match l, h with
  | c1 :: rest, h =>
    simp only [btAt, Bool.and_eq_true, decide_eq_true_eq] at h
    exact ⟨c1, List.mem_cons_self _ _, h.1⟩

theorem hexEscAt_mem {l : List Char} (h : hexEscAt l = true) : ∃ c ∈ l, c.toNat = 92 := by
  match l, h with
  | c1 :: c2 :: c3 :: c4 :: rest, h =>
    simp only [hexEscAt, Bool.and_eq_true, decide_eq_true_eq] at h
    exact ⟨c1, List.mem_cons_self _ _, h.1.1.1⟩

theorem uniEscAt_mem {l : List Char} (h : uniEscAt l = true) : ∃ c ∈ l, c.toNat = 92 := by
  match l, h with
  | c1 :: c2 :: c3 :: c4 :: c5 :: c6 :: rest, h =>
    simp only [uniEscAt, Bool.and_eq_true, decide_eq_true_eq] at h
    exact ⟨c1, List.mem_cons_self _ _, h.1.1.1.1.1⟩

theorem pctAt_mem {l : List Char} (h : pctAt l = true) : ∃ c ∈ l, c.toNat = 37 := by
  match l, h with
  | c1 :: c2 :: c3 :: rest, h =>
    simp only [pctAt, Bool.and_eq_true, decide_eq_true_eq] at h
    exact ⟨c1, List.mem_cons_self _ _, h.1⟩

/-- A character of the original string whose lowercase form has the given
(non-lowercase-letter) code point. -/
theorem exists_orig_of_lower {s : String} {k : Nat}
    (hk : k < 97 ∨ 122 < k)
    (h : ∃ c ∈ s.data.map lowerChar, c.toNat = k) : ∃ c ∈ s.data, c.toNat = k := by
  obtain ⟨c, hc, hr⟩ := h
  obtain ⟨c0, hc0, rfl⟩ := List.mem_map.mp hc
  exact ⟨c0, hc0, toNat_of_lowerChar_toNat hr hk⟩

/-- A blocked-character witness extracted from a case-insensitive literal
containment, for a pattern character outside the lowercase-letter range. -/
theorem exists_orig_of_containsCI {sub s : String} {t : Char}
    (h : containsCI sub s = true) (ht : t ∈ sub.data)
    (hk : t.toNat < 97 ∨ 122 < t.toNat) : ∃ c ∈ s.data, c.toNat = t.toNat := by
  have := containsSeq_subset h t ht
  exact exists_orig_of_lower hk ⟨t, this, rfl⟩

/-- No deny-list pattern can match a string all of whose characters lie in
the allow-list class minus vertical tab and form feed: every pattern needs a
character outside that set. -/
theorem blockedAny_eq_false {s : String}
    (hall : ∀ c ∈ s.data, allowedProp c.toNat ∧ c.toNat ≠ 11 ∧ c.toNat ≠ 12) :
    blockedAny s = false := by
  have hK : ∀ k, (∃ c ∈ s.data, c.toNat = k) → allowedProp k := by
    rintro k ⟨c, hc, rfl⟩; exact (hall c hc).1
  have h0 : hasControlChar s = false := by
    rw [Bool.eq_false_iff]; intro h
    obtain ⟨c, hc, hcp⟩ := List.any_eq_true.mp h
    have h1 := hall c hc
    have h2 := of_decide_eq_true hcp
    unfold allowedProp digitProp jsWsProp at h1
    unfold controlProp at h2
    omega
  have h1 : hasDangerChar s = false := by
    rw [Bool.eq_false_iff]; intro h
    obtain ⟨c, hc, hcp⟩ := List.any_eq_true.mp h
    have h1 := hall c hc
    have h2 := of_decide_eq_true hcp
    unfold allowedProp digitProp jsWsProp at h1
    unfold dangerProp at h2
    omega
  have h2 : hasProtocol s = false := by
    rw [Bool.eq_false_iff]; intro h
    unfold hasProtocol at h
    have hcolon : ∃ c ∈ s.data, c.toNat = 58 := by
      rcases Bool.or_eq_true _ _ |>.mp h with h' | h'
      · rcases Bool.or_eq_true _ _ |>.mp h' with h'' | h''
        · exact exists_orig_of_containsCI h'' (show (':' : Char) ∈ "javascript:".data by decide)
            (by decide)
        · exact exists_orig_of_containsCI h'' (show (':' : Char) ∈ "data:".data by decide)
            (by decide)
      · exact exists_orig_of_containsCI h' (show (':' : Char) ∈ "vbscript:".data by decide)
          (by decide)
    exact (by decide : ¬ allowedProp 58) (hK 58 hcolon)
  have h3 : hasEventHandler s = false := by
    rw [Bool.eq_false_iff]; intro h
    have := exists_orig_of_lower (s := s) (k := 61) (by decide) (scanAll_ex (fun _ hh => evAt_mem hh) h)
    exact (by decide : ¬ allowedProp 61) (hK 61 this)
  have h4 : hasTemplate s = false := by
    rw [Bool.eq_false_iff]; intro h
    exact (by decide : ¬ allowedProp 36) (hK 36 (scanAll_ex (fun _ hh => tmplAt_mem hh) h))
  have h5 : hasBacktickPair s = false := by
    rw [Bool.eq_false_iff]; intro h
    exact (by decide : ¬ allowedProp 96) (hK 96 (scanAll_ex (fun _ hh => btAt_mem hh) h))
  have h6 : hasHexEscape s = false := by
    rw [Bool.eq_false_iff]; intro h
    exact (by decide : ¬ allowedProp 92) (hK 92 (scanAll_ex (fun _ hh => hexEscAt_mem hh) h))
  have h7 : hasUniEscape s = false := by
    rw [Bool.eq_false_iff]; intro h
    exact (by decide : ¬ allowedProp 92) (hK 92 (scanAll_ex (fun _ hh => uniEscAt_mem hh) h))
  have h8 : hasPctEscape s = false := by
    rw [Bool.eq_false_iff]; intro h
    exact (by decide : ¬ allowedProp 37) (hK 37 (scanAll_ex (fun _ hh => pctAt_mem hh) h))
  have h9 : hasTagOpener s = false := by
    rw [Bool.eq_false_iff]; intro h
    unfold hasTagOpener at h
    have hlt : ∃ c ∈ s.data, c.toNat = 60 := by
      rcases Bool.or_eq_true _ _ |>.mp h with h' | h'
      · rcases Bool.or_eq_true _ _ |>.mp h' with h'' | h''
        · rcases Bool.or_eq_true _ _ |>.mp h'' with h3 | h3
          · exact exists_orig_of_containsCI h3 (show ('<' : Char) ∈ "<script".data by decide)
              (by decide)
          · exact exists_orig_of_containsCI h3 (show ('<' : Char) ∈ "<iframe".data by decide)
              (by decide)
        · exact exists_orig_of_containsCI h'' (show ('<' : Char) ∈ "<object".data by decide)
            (by decide)
      · exact exists_orig_of_containsCI h' (show ('<' : Char) ∈ "<embed".data by decide)
          (by decide)
    exact (by decide : ¬ allowedProp 60) (hK 60 hlt)
  unfold blockedAny
  rw [h0, h1, h2, h3, h4, h5, h6, h7, h8, h9]
  rfl

/-! ## Support lemmas: trimming and collapsing -/

theorem mem_dropWhile_of_not {p : Char → Bool} {c : Char} (hc : p c = false) :
    ∀ {l : List Char}, c ∈ l → c ∈ l.dropWhile p := by
  intro l
  induction l with
  | nil => intro h; simp at h
  | cons a as ih =>
    intro h
    rw [List.dropWhile_cons]
    split
    · rename_i hpa
      rcases List.mem_cons.mp h with rfl | h2
      · rw [hc] at hpa; simp at hpa
      · exact ih h2
    · exact h

theorem mem_of_mem_trimWs {l : List Char} {c : Char} (h : c ∈ trimWs l) : c ∈ l := by
  unfold trimWs at h
  have h1 := List.mem_reverse.mp h
  have h2 := (List.dropWhile_sublist _).subset h1
  have h3 := List.mem_reverse.mp h2
  exact (List.dropWhile_sublist _).subset h3

theorem mem_trimWs_of_not {l : List Char} {c : Char} (hc : wsB c = false)
    (h : c ∈ l) : c ∈ trimWs l := by
  unfold trimWs
  rw [List.mem_reverse]
  apply mem_dropWhile_of_not hc
  rw [List.mem_reverse]
  exact mem_dropWhile_of_not hc h

theorem mem_collapseWs :
    ∀ {l : List Char} {b : Bool} {c : Char}, c ∈ collapseWs l b → c = ' ' ∨ c ∈ l := by
  intro l
  induction l with
  | nil => intro b c h; simp [collapseWs] at h
  | cons a as ih =>
    intro b c h
    unfold collapseWs at h
    split at h
    · split at h
      · rcases ih h with h' | h'
        · exact Or.inl h'
        · exact Or.inr (List.mem_cons_of_mem _ h')
      · rcases List.mem_cons.mp h with rfl | h'
        · exact Or.inl rfl
        · rcases ih h' with h'' | h''
          · exact Or.inl h''
          · exact Or.inr (List.mem_cons_of_mem _ h'')
    · rcases List.mem_cons.mp h with rfl | h'
      · exact Or.inr (List.mem_cons_self _ _)
      · rcases ih h' with h'' | h''
        · exact Or.inl h''
        · exact Or.inr (List.mem_cons_of_mem _ h'')

theorem collapseWs_ne_nil {c : Char} (hc : wsB c = false) :
    ∀ {l : List Char} {b : Bool}, c ∈ l → collapseWs l b ≠ [] := by
  intro l
  induction l with
  | nil => intro b h; simp at h
  | cons a as ih =>
    intro b h
    unfold collapseWs
    split
    · rename_i hwa
      have hcas : c ∈ as := by
        rcases List.mem_cons.mp h with rfl | h2
        · rw [hc] at hwa; simp at hwa
        · exact h2
      split
      · exact ih hcas
      · simp
    · simp

/-- The normalized string passes the allow-list test as soon as the raw
input is made of allowed characters and has at least one non-whitespace
character. -/
theorem allowedTest_collapse_trim {s : String}
    (hall : ∀ c ∈ s.data, allowedProp c.toNat)
    (hnw : ∃ c ∈ s.data, wsB c = false) :
    allowedTest (collapseWs (trimWs s.data) false) = true := by
  unfold allowedTest
  rw [Bool.and_eq_true]
  constructor
  · obtain ⟨c, hc, hcw⟩ := hnw
    have hmem : c ∈ trimWs s.data := mem_trimWs_of_not hcw hc
    have hne := collapseWs_ne_nil hcw (b := false) hmem
    simpa using hne
  · rw [List.all_eq_true]
    intro c hc
    rcases mem_collapseWs hc with rfl | h2
    · exact decide_eq_true (by decide : allowedProp (' ' : Char).toNat)
    · exact decide_eq_true (hall c (mem_of_mem_trimWs h2))

/-! ## Claim C5 -/

/-- C5: every input string matching one of the deny-listed patterns of
`SECURITY.BLOCKED_PATTERNS` is rejected by `sanitizeSearch` — the sanitizer
never returns a term for it. -/
theorem sanitizeSearch_blocked_fails (input : String)
    (h : blockedAny input = true) : ∃ e, sanitizeSearch input = .error e := by
  unfold sanitizeSearch
  by_cases hl : input.length < 2 ∨ 55 < input.length
  · rw [if_pos hl]
    exact ⟨.badLength, rfl⟩
  · rw [if_neg hl, if_pos h]
    exact ⟨.blockedChars, rfl⟩

/-- C5 witness: the spec's example attack string is deny-listed and
rejected. -/
theorem sanitizeSearch_blocked_fails_witness :
    blockedAny "<script>alert(1)</script>" = true ∧
      ∃ e, sanitizeSearch "<script>alert(1)</script>" = .error e :=
  ⟨by decide, sanitizeSearch_blocked_fails "<script>alert(1)</script>" (by decide)⟩

/-! ## Claim C6 -/

/-- C6 counterexample: the two-space string has length 2 and consists only
of allow-listed characters (space is in the `\s` part of the class), yet
`sanitizeSearch` rejects it: after trimming, the allow-list regex — which
requires at least one character — fails on the empty remainder. -/
theorem sanitizeSearch_allowed_claim_cex :
    (2 ≤ ("  " : String).length ∧ ("  " : String).length ≤ 55 ∧
      ∀ c ∈ ("  " : String).data, allowedProp c.toNat) ∧
      sanitizeSearch "  " = .error .disallowedChars := by
  exact ⟨⟨by decide, by decide, by decide⟩, rfl⟩

/-- C6 (amended): every input of raw length 2-55 made only of allow-listed
characters other than vertical tab and form feed (code points 11 and 12,
which are in the allow-list's `\s` but also in the control-character
deny-list) and containing at least one non-whitespace character succeeds,
returning the input trimmed and with whitespace runs collapsed to single
spaces. -/
theorem sanitizeSearch_allowed_ok (s : String)
    (hlen2 : 2 ≤ s.length) (hlen55 : s.length ≤ 55)
    (hall : ∀ c ∈ s.data, allowedProp c.toNat ∧ c.toNat ≠ 11 ∧ c.toNat ≠ 12)
    (hnw : ∃ c ∈ s.data, ¬ jsWsProp c.toNat) :
    sanitizeSearch s = .ok ⟨collapseWs (trimWs s.data) false⟩ := by
  unfold sanitizeSearch
  rw [if_neg (by omega)]
  have hb : blockedAny s = false := blockedAny_eq_false hall
  simp only [hb]
  have hat : allowedTest (collapseWs (trimWs s.data) false) = true := by
    apply allowedTest_collapse_trim (fun c hc => (hall c hc).1)
    obtain ⟨c, hc, hcw⟩ := hnw
    exact ⟨c, hc, decide_eq_false hcw⟩
  simp only [Bool.false_eq_true, if_false]
  rw [if_pos hat]


/-- C6 witness: a realistic search term with a doubled space normalizes to
single spaces and is accepted. -/
theorem sanitizeSearch_allowed_ok_witness :
    (2 ≤ ("Fender Strat  60s" : String).length ∧
      ("Fender Strat  60s" : String).length ≤ 55 ∧
      (∀ c ∈ ("Fender Strat  60s" : String).data,
        allowedProp c.toNat ∧ c.toNat ≠ 11 ∧ c.toNat ≠ 12) ∧
      ∃ c ∈ ("Fender Strat  60s" : String).data, ¬ jsWsProp c.toNat) ∧
      sanitizeSearch "Fender Strat  60s" = .ok "Fender Strat 60s" := by
  refine ⟨⟨by decide, by decide, by decide, by decide⟩, ?_⟩
  rw [sanitizeSearch_allowed_ok "Fender Strat  60s" (by decide) (by decide)
    (by decide) (by decide)]
  rfl

/-! ## Claim C7 -/

/-- C7 counterexample: the claim says the [2, 55] length bound is applied to
the trimmed, whitespace-collapsed form, so the input made of a space and the
letter a (whose normalized form has length 1) should be rejected for length;
the code applies the bound to the raw input (length 2) and accepts it. -/
theorem sanitizeSearch_length_claim_cex :
    sanitizeSearch " a" = .ok "a" ∧
      (collapseWs (trimWs (" a" : String).data) false).length = 1 := by
  exact ⟨rfl, by decide⟩

/-- C7 (amended): the [2, 55] length bound is applied to the raw input
before any trimming or collapsing: `sanitizeSearch` rejects for length
exactly when the raw length is outside [2, 55]. -/
theorem sanitizeSearch_length_iff (s : String) :
    sanitizeSearch s = .error .badLength ↔ (s.length < 2 ∨ 55 < s.length) := by
  unfold sanitizeSearch
  split
  · rename_i h
    simp only [h, iff_true]
  · rename_i h
    constructor
    · intro hcontra
      split at hcontra
      · simp at hcontra
      · split at hcontra <;> simp at hcontra
    · intro hlen
      exact absurd hlen h

/-! ## Queue claims: shared guard lemma -/

/-- While `processing` is non-null, a trigger executes nothing and leaves
`pendingSearches`, `processing` and `completedSearches` as they were. -/
theorem processQueue_guard {q : QueueState} (env : Env) {j : QueueEntry}
    (h : q.processing = some j) :
    (processQueue q env).state.processing = some j ∧
    (processQueue q env).state.pendingSearches = q.pendingSearches ∧
    (processQueue q env).executed = [] := by
  unfold processQueue
  cases hp : q.pendingSearches with
  | nil => exact ⟨h, rfl, rfl⟩
  | cons e rest => simp [h, hp]

/-! ## Claim C2 -/

/-- C2: whenever `processing` is non-empty, a further queue trigger is a
no-op — it executes no job and leaves `pendingSearches` and `processing`
unchanged (so a second trigger issued during an execution adds no second
execution). -/
theorem processQueue_single_flight (q : QueueState) (env : Env)
    (h : q.processing.isSome = true) :
    (processQueue q env).executed = [] ∧
    (processQueue q env).state.pendingSearches = q.pendingSearches ∧
    (processQueue q env).state.processing = q.processing := by
  obtain ⟨j, hj⟩ := Option.isSome_iff_exists.mp h
  have hg := processQueue_guard env hj
  exact ⟨hg.2.2, hg.2.1, by rw [hg.1, hj]⟩

/-- C2 witness: a concrete busy queue state on which a trigger is a no-op. -/
theorem processQueue_single_flight_witness :
    busyQueue.processing.isSome = true ∧
      ((processQueue busyQueue cexEnv).executed = [] ∧
        (processQueue busyQueue cexEnv).state.pendingSearches = busyQueue.pendingSearches ∧
        (processQueue busyQueue cexEnv).state.processing = busyQueue.processing) :=
  ⟨rfl, processQueue_single_flight busyQueue cexEnv rfl⟩

/-! ## Claim C3 -/

/-- C3 counterexample: a queue loaded with a stale `processing` entry (as
after a mid-job termination) is not cleared by the next trigger — the claim
says the stale entry is explicitly detected and cleared, but `processQueue`
only skips, leaving `processing` still set. -/
theorem processQueue_stale_cex :
    staleQueue.processing = some busyEntry ∧
      (processQueue staleQueue cexEnv).state.processing = some busyEntry ∧
      (processQueue staleQueue cexEnv).state.processing ≠ none := by
  refine ⟨rfl, rfl, ?_⟩
  intro h
  cases h

/-- C3 (amended): a stale `processing` entry left over from a terminated run
is never auto-executed again — every later sequence of triggers executes
nothing and leaves `pendingSearches` untouched — but it is also never
cleared: the queue stays blocked on the stale entry until it is removed by
hand. -/
theorem processQueue_stale_never_rerun (q : QueueState) (j : QueueEntry)
    (envs : List Env) (h : q.processing = some j) :
    (runTriggers q envs).1.processing = some j ∧
    (runTriggers q envs).2 = [] ∧
    (runTriggers q envs).1.pendingSearches = q.pendingSearches := by
  induction envs generalizing q with
  | nil => exact ⟨h, rfl, rfl⟩
  | cons env rest ih =>
    have hg := processQueue_guard env h
    have ihh := ih (processQueue q env).state hg.1
    unfold runTriggers
    refine ⟨ihh.1, ?_, ?_⟩
    · simp [hg.2.2, ihh.2.1]
    · rw [ihh.2.2, hg.2.1]

/-- C3 witness: two further triggers on a concrete stale state run nothing
and leave the stale entry in place. -/
theorem processQueue_stale_never_rerun_witness :
    staleQueue.processing = some busyEntry ∧
      ((runTriggers staleQueue [cexEnv, cexEnv]).1.processing = some busyEntry ∧
        (runTriggers staleQueue [cexEnv, cexEnv]).2 = [] ∧
        (runTriggers staleQueue [cexEnv, cexEnv]).1.pendingSearches =
          staleQueue.pendingSearches) :=
  ⟨rfl, processQueue_stale_never_rerun staleQueue busyEntry [cexEnv, cexEnv] rfl⟩

/-! ## Claim C1 -/

/-- C1 counterexample: a job whose acquisition succeeds but whose push
fails (`pushed = false`) is shifted off `pendingSearches` (so not
re-enqueued at the front) and is recorded in `completedSearches` with
`success = true` — the opposite of what the claim states. -/
theorem processQueue_publish_fail_cex :
    (processQueue cexQueue cexEnv).pushed = false ∧
      (processQueue cexQueue cexEnv).executed = [exEntry] ∧
      (processQueue cexQueue cexEnv).state.pendingSearches = [] ∧
      (processQueue cexQueue cexEnv).state.completedSearches =
        [{ entry := exEntry, completedAt := "t1", resultCount := 3, success := true }] := by
  refine ⟨rfl, ?_, ?_, ?_⟩ <;> rfl

/-- C1 (amended): the persisted queue state and the set of executed jobs do
not depend on the push outcome at all; in particular a job whose acquisition
succeeds but whose publish fails is still dequeued and recorded at the head
of `completedSearches` with `success = true`, and is not re-enqueued. -/
theorem processQueue_publish_no_requeue :
    (∀ q env b,
      (processQueue q { env with pushOk := b }).state = (processQueue q env).state ∧
      (processQueue q { env with pushOk := b }).executed = (processQueue q env).executed) ∧
    (∀ q e rest s env, q.pendingSearches = e :: rest → q.processing = none →
      validateQueueEntry e = .ok s → env.browserOk = true →
      env.searchSuccess = true → env.pushOk = false →
      (processQueue q env).state.pendingSearches = rest ∧
      (processQueue q env).state.processing = none ∧
      (processQueue q env).state.completedSearches.head? =
        some { entry := s, completedAt := env.now, resultCount := env.searchCount,
               success := true } ∧
      (processQueue q env).pushed = false) := by
  have hhead : ∀ (a : CompletedSearch) (l : List CompletedSearch),
      (if 10 < (a :: l).length then (a :: l).take 10 else a :: l).head? = some a := by
    intro a l
    split
    · rfl
    · rfl
  constructor
  · intro q env b
    unfold processQueue
    cases hp : q.pendingSearches with
    | nil => constructor <;> rfl
    | cons e rest =>
      by_cases hs : q.processing.isSome = true
      · constructor <;> simp [hs]
      · simp only [Bool.not_eq_true] at hs
        cases hv : validateQueueEntry e with
        | error err => constructor <;> simp [hs, hv]
        | ok search =>
          by_cases hb : env.browserOk = true
          · constructor <;> simp [hs, hv, hb]
          · simp only [Bool.not_eq_true] at hb
            constructor <;> simp [hs, hv, hb]
  · intro q e rest s env hp hproc hv hb hss hpush
    unfold processQueue
    simp only [hp, hproc, Option.isSome_none, Bool.false_eq_true, if_false, hv, hb,
      Bool.not_true, hss, hpush]
    simp [hhead]
    split
    · rfl
    · rfl

/-- C1 witness: the amended statement at the concrete publish-failure run. -/
theorem processQueue_publish_no_requeue_witness :
    ((processQueue cexQueue { cexEnv with pushOk := true }).state =
        (processQueue cexQueue cexEnv).state ∧
      (processQueue cexQueue { cexEnv with pushOk := true }).executed =
        (processQueue cexQueue cexEnv).executed) ∧
    (cexQueue.pendingSearches = [exEntry] ∧ cexQueue.processing = none ∧
      validateQueueEntry exEntry = .ok exEntry ∧ cexEnv.browserOk = true ∧
      cexEnv.searchSuccess = true ∧ cexEnv.pushOk = false) ∧
    ((processQueue cexQueue cexEnv).state.pendingSearches = [] ∧
      (processQueue cexQueue cexEnv).state.processing = none ∧
      (processQueue cexQueue cexEnv).state.completedSearches.head? =
        some { entry := exEntry, completedAt := "t1", resultCount := 3,
               success := true } ∧
      (processQueue cexQueue cexEnv).pushed = false) := by
  refine ⟨processQueue_publish_no_requeue.1 cexQueue cexEnv true,
    ⟨rfl, rfl, rfl, rfl, rfl, rfl⟩, ?_⟩
  exact processQueue_publish_no_requeue.2 cexQueue exEntry [] exEntry cexEnv
    rfl rfl rfl rfl rfl rfl

/-! ## Claim C10 -/

/-- C10: a progress report during an executing job overwrites exactly
`currentProgress` and `statusMessage`; `pendingSearches`, `processing`,
`completedSearches` and `lastChecked` are unchanged by the call. -/
theorem updateQueueStatus_frame (q : QueueState) (percent : Nat) (message : String) :
    (updateQueueStatus q (progressUpdate percent message)).pendingSearches =
        q.pendingSearches ∧
      (updateQueueStatus q (progressUpdate percent message)).processing = q.processing ∧
      (updateQueueStatus q (progressUpdate percent message)).completedSearches =
        q.completedSearches ∧
      (updateQueueStatus q (progressUpdate percent message)).lastChecked = q.lastChecked ∧
      (updateQueueStatus q (progressUpdate percent message)).currentProgress = percent ∧
      (updateQueueStatus q (progressUpdate percent message)).statusMessage = message :=
  ⟨rfl, rfl, rfl, rfl, rfl, rfl⟩

/-! ## Claim C9 -/

/-- C9: the merged housing document is exactly the new candidate set, each
listing's `isNew` recomputed as absence of its id among the previous
document's ids; ids absent from the new candidates do not survive.  In
particular, with previous ids A and B and new candidates B and C, the output
is B (not new) then C (new), and A is gone. -/
theorem saveListings_merge :
    (∀ (ids : List String) (ls : List HListing) (now : String),
      (saveListings ids ls now).listings =
        ls.map (fun l => { l with isNew := !ids.contains l.id }) ∧
      (saveListings ids ls now).listings.map (fun l => l.id) =
        ls.map (fun l => l.id)) ∧
    ((saveListings ["A", "B"] [hListB, hListC] "t").listings.map
        (fun l => (l.id, l.isNew)) = [("B", false), ("C", true)] ∧
      "A" ∉ (saveListings ["A", "B"] [hListB, hListC] "t").listings.map
        (fun l => l.id)) := by
  refine ⟨fun ids ls now => ⟨rfl, ?_⟩, by decide, by decide⟩
  rw [saveListings, List.map_map]
  rfl

/-! ## Claim C4 -/

/-- C4 counterexample: a listing priced with the Craigslist default text
(Contact for price, lowercase p) has no numeric match — the claimed ranking
would drop it as sentinel-priced, but `getTop3Cheapest` keeps it, since the
code's filter only removes falsy prices and the two exact marker strings. -/
theorem getTop3Cheapest_claim_cex :
    getTop3Cheapest [glContact] ≠ top3Claimed [glContact] := by decide

/-- C4 (amended): the ranking first removes exactly the listings whose price
text is absent or empty or is one of the two exact markers (Price not shown,
Contact for Price); the rest are stable-sorted ascending by extracted
numeric price and the first 3 returned — listings whose kept price text has
no numeric match sort last instead of being dropped.  On the spec's example
the output is the 10, 30 and 50 dollar listings in that order with the
Price-not-shown entry excluded. -/
theorem getTop3Cheapest_amended :
    (∀ ls, getTop3Cheapest ls = top3Amended ls) ∧
      getTop3Cheapest [glA, glB, glC, glD] = [glC, glD, glA] := by
  constructor
  · intro ls
    unfold getTop3Cheapest top3Amended
    have hfilter : ls.filter keepListing = ls.filter amendedKeep := by
      apply List.filter_congr
      intro l _
      unfold keepListing amendedKeep jsTruthyStr
      cases l.price with
      | none => rfl
      | some s => rfl
    rw [hfilter]
  · decide

/-! ## Claim C8: support lemmas for the comparator and the sort -/

theorem cross_le_iff (n1 s1 n2 s2 : Nat) :
    n1 * 10 ^ s2 ≤ n2 * 10 ^ s1 ↔ qval n1 s1 ≤ qval n2 s2 := by
  unfold qval
  rw [div_le_div_iff₀ (by positivity) (by positivity)]
  constructor <;> intro h <;> exact_mod_cast h

theorem cmpPrice_val_le_iff (n1 s1 n2 s2 : Nat) :
    cmpPrice (.val n1 s1) (.val n2 s2) ≤ 0 ↔ qval n1 s1 ≤ qval n2 s2 := by
  rw [← cross_le_iff]
  show (if n1 * 10 ^ s2 < n2 * 10 ^ s1 then (-1 : Int)
    else if n2 * 10 ^ s1 < n1 * 10 ^ s2 then 1 else 0) ≤ 0 ↔ _
  split_ifs with h1 h2 <;> constructor <;> intro h <;> omega

theorem cmpPrice_val_inf (n s : Nat) : cmpPrice (.val n s) .inf = -1 := rfl

theorem cmpPrice_inf_val (n s : Nat) : cmpPrice .inf (.val n s) = 1 := rfl

theorem cmpPrice_total {x y : PriceVal} (hx : x ≠ .nan) (hy : y ≠ .nan) :
    cmpPrice x y ≤ 0 ∨ cmpPrice y x ≤ 0 := by
  cases x with
  | nan => exact absurd rfl hx
  | inf =>
    cases y with
    | nan => exact absurd rfl hy
    | inf => left; exact le_refl 0
    | val n s => right; rw [cmpPrice_val_inf]; decide
  | val n s =>
    cases y with
    | nan => exact absurd rfl hy
    | inf => left; rw [cmpPrice_val_inf]; decide
    | val m t =>
      rcases le_total (qval n s) (qval m t) with h | h
      · left; exact (cmpPrice_val_le_iff n s m t).mpr h
      · right; exact (cmpPrice_val_le_iff m t n s).mpr h

theorem cmpPrice_trans {x y z : PriceVal} (hx : x ≠ .nan) (hy : y ≠ .nan)
    (hz : z ≠ .nan) (h1 : cmpPrice x y ≤ 0) (h2 : cmpPrice y z ≤ 0) :
    cmpPrice x z ≤ 0 := by
  cases x with
  | nan => exact absurd rfl hx
  | inf =>
    cases y with
    | nan => exact absurd rfl hy
    | val m t => rw [cmpPrice_inf_val] at h1; exact absurd h1 (by decide)
    | inf =>
      cases z with
      | nan => exact absurd rfl hz
      | val m t => rw [cmpPrice_inf_val] at h2; exact absurd h2 (by decide)
      | inf => exact le_refl 0
  | val n s =>
    cases z with
    | nan => exact absurd rfl hz
    | inf => rw [cmpPrice_val_inf]; decide
    | val p u =>
      cases y with
      | nan => exact absurd rfl hy
      | inf => rw [cmpPrice_inf_val] at h2; exact absurd h2 (by decide)
      | val m t =>
        exact (cmpPrice_val_le_iff n s p u).mpr
          (le_trans ((cmpPrice_val_le_iff n s m t).mp h1)
            ((cmpPrice_val_le_iff m t p u).mp h2))

theorem mem_insertSorted {α : Type} {le : α → α → Bool} {x y : α} :
    ∀ {l : List α}, y ∈ insertSorted le x l → y = x ∨ y ∈ l := by
  intro l
  induction l with
  | nil =>
    intro h
    unfold insertSorted at h
    exact Or.inl (List.mem_singleton.mp h)
  | cons a as ih =>
    intro h
    unfold insertSorted at h
    split at h
    · rcases List.mem_cons.mp h with rfl | h2
      · exact Or.inl rfl
      · exact Or.inr h2
    · rcases List.mem_cons.mp h with rfl | h2
      · exact Or.inr (List.mem_cons_self _ _)
      · rcases ih h2 with h3 | h3
        · exact Or.inl h3
        · exact Or.inr (List.mem_cons_of_mem _ h3)

theorem mem_of_stableSort {α : Type} {le : α → α → Bool} :
    ∀ {l : List α} {y : α}, y ∈ stableSort le l → y ∈ l := by
  intro l
  induction l with
  | nil => intro y h; simp [stableSort] at h
  | cons a as ih =>
    intro y h
    unfold stableSort at h
    rcases mem_insertSorted h with rfl | h2
    · exact List.mem_cons_self _ _
    · exact List.mem_cons_of_mem _ (ih h2)

theorem pairwise_insertSorted {α : Type} (le : α → α → Bool) (P : α → Prop)
    (htot : ∀ a b, P a → P b → le a b = true ∨ le b a = true)
    (htrans : ∀ a b c, P a → P b → P c →
      le a b = true → le b c = true → le a c = true)
    {x : α} (hx : P x) :
    ∀ {l : List α}, (∀ y ∈ l, P y) →
      l.Pairwise (fun a b => le a b = true) →
      (insertSorted le x l).Pairwise (fun a b => le a b = true) := by
  intro l
  induction l with
  | nil =>
    intro _ _
    unfold insertSorted
    exact List.pairwise_singleton _ _
  | cons a as ih =>
    intro hl h
    have h' := List.pairwise_cons.mp h
    unfold insertSorted
    split
    · rename_i hxa
      refine List.pairwise_cons.mpr ⟨?_, h⟩
      intro y hy
      rcases List.mem_cons.mp hy with rfl | hy2
      · exact hxa
      · exact htrans x a y hx (hl a (List.mem_cons_self _ _))
          (hl y (List.mem_cons_of_mem _ hy2)) hxa (h'.1 y hy2)
    · rename_i hxa
      refine List.pairwise_cons.mpr ⟨?_, ?_⟩
      · intro y hy
        rcases mem_insertSorted hy with rfl | hy2
        · rcases htot y a hx (hl a (List.mem_cons_self _ _)) with h3 | h3
          · exact absurd h3 hxa
          · exact h3
        · exact h'.1 y hy2
      · exact ih (fun y hy => hl y (List.mem_cons_of_mem _ hy)) h'.2

theorem pairwise_stableSort {α : Type} (le : α → α → Bool) (P : α → Prop)
    (htot : ∀ a b, P a → P b → le a b = true ∨ le b a = true)
    (htrans : ∀ a b c, P a → P b → P c →
      le a b = true → le b c = true → le a c = true) :
    ∀ {l : List α}, (∀ y ∈ l, P y) →
      (stableSort le l).Pairwise (fun a b => le a b = true) := by
  intro l
  induction l with
  | nil => intro _; simp [stableSort]
  | cons a as ih =>
    intro hl
    unfold stableSort
    apply pairwise_insertSorted le P htot htrans (hl a (List.mem_cons_self _ _))
    · intro y hy
      exact hl y (List.mem_cons_of_mem _ (mem_of_stableSort hy))
    · exact ih (fun y hy => hl y (List.mem_cons_of_mem _ hy))

/-! ## Claim C8 -/

/-- C8: `extractPrice` maps a missing or empty price text to the Infinity
sentinel, maps any text with no match of the numeric pattern to the
sentinel, takes the first match (commas stripped, through `parseFloat`)
otherwise; in the ascending price ordering of the ranker the sentinel sorts
strictly after every numeric price value, and in the ranker's stable sort of
any list of listings with no NaN price, no sentinel-priced listing ever
precedes a numerically priced one. -/
theorem extractPrice_sentinel_last :
    (extractPrice none = .inf ∧ extractPrice (some "") = .inf) ∧
    (∀ s : String, firstNumMatch s.data = none → extractPrice (some s) = .inf) ∧
    (∀ (s : String) (m : List Char), firstNumMatch s.data = some m →
      extractPrice (some s) =
        parseJsFloat (m.filter (fun ch => !(ch.toNat = 44 : Bool)))) ∧
    (∀ n s : Nat, cmpPrice (.val n s) .inf < 0 ∧ 0 < cmpPrice .inf (.val n s)) ∧
    (∀ ls : List GListing, (∀ l ∈ ls, extractPrice l.price ≠ .nan) →
      (stableSort priceLe ls).Pairwise
        (fun a b => extractPrice a.price = .inf → extractPrice b.price = .inf)) := by
  refine ⟨⟨rfl, rfl⟩, ?_, ?_, ?_, ?_⟩
  · intro s h
    unfold extractPrice
    dsimp only
    by_cases hd : s.data = []
    · rw [if_pos hd]
    · rw [if_neg hd, h]
  · intro s m h
    have hd : s.data ≠ [] := by
      intro hd
      rw [hd] at h
      simp [firstNumMatch] at h
    unfold extractPrice
    dsimp only
    rw [if_neg hd, h]
  · intro n s
    constructor
    · rw [cmpPrice_val_inf]; decide
    · rw [cmpPrice_inf_val]; decide
  · intro ls hnan
    have hP := pairwise_stableSort priceLe
      (fun l => extractPrice l.price ≠ PriceVal.nan)
      (fun a b ha hb => by
        rcases cmpPrice_total ha hb with h | h
        · exact Or.inl (decide_eq_true h)
        · exact Or.inr (decide_eq_true h))
      (fun a b c ha hb hc h1 h2 => decide_eq_true
        (cmpPrice_trans ha hb hc (of_decide_eq_true h1) (of_decide_eq_true h2)))
      hnan
    refine List.Pairwise.imp_of_mem ?_ hP
    intro a b ha hb hab hainf
    have hbn := hnan b (mem_of_stableSort hb)
    have hle := of_decide_eq_true hab
    rw [hainf] at hle
    cases hcb : extractPrice b.price with
    | inf => rfl
    | nan => exact absurd hcb hbn
    | val m t =>
      rw [hcb, cmpPrice_inf_val] at hle
      exact absurd hle (by decide)

/-- C8 witness: the sentinel and first-match behavior on concrete price
texts, and the sentinel ordering on a concrete listing pair. -/
theorem extractPrice_sentinel_last_witness :
    extractPrice (some "no price") = .inf ∧
    extractPrice (some "$1,234.56") =
      parseJsFloat (("1,234.56" : String).data.filter
        (fun ch => !(ch.toNat = 44 : Bool))) ∧
    (cmpPrice (.val 10 0) .inf < 0 ∧ 0 < cmpPrice .inf (.val 10 0)) ∧
    (stableSort priceLe [glContact, glA]).Pairwise
      (fun a b => extractPrice a.price = .inf → extractPrice b.price = .inf) :=
  ⟨extractPrice_sentinel_last.2.1 "no price" (by decide),
    extractPrice_sentinel_last.2.2.1 "$1,234.56" ("1,234.56" : String).data (by decide),
    extractPrice_sentinel_last.2.2.2.1 10 0,
    extractPrice_sentinel_last.2.2.2.2 [glContact, glA] (by decide)⟩
